import Mathlib

/-!
Verification of the `days` command-line reminder tool (src/main.rs).

The development shallowly embeds the program's data model and the parts of
its behavior the specification talks about:

* `Date` models `chrono::NaiveDate` (a naive proleptic-Gregorian calendar
  date, no time-of-day, no timezone).
* `toDayNumber` models the day arithmetic behind
  `NaiveDate::signed_duration_since`: the standard civil-from-days bijection
  between dates and day counts (epoch 1970-01-01), so that the difference of
  two dates' day numbers is exactly the whole-day `Duration` chrono returns.
* `Event`, `EventItem` mirror the structs in main.rs.
* `classify` is the bucketing loop of `run` (main.rs lines 101-114).
* `sortByRel`/`presentPast`/`presentFuture` model the presenter part of
  `run` (lines 117-135): Rust's stable `sort_by` with the two comparators,
  then the rendered (event, day-count) pairs.
* `formatDate`/`parseDateText` model `NaiveDate`'s `Display` in the
  `%Y-%m-%d` shape and `NaiveDate::parse_from_str(_, "%Y-%m-%d")` as used
  by `read_events`/`write_events` (chrono's numeric scanner: optional
  leading whitespace skip, a sign makes the year field unbounded, otherwise
  at most 4 digits for `%Y` and at most 2 for `%m`/`%d`).
* `readEvents` is `read_events` (lines 147-163) over an already
  field-split view of the CSV file: the `csv` reader (non-flexible, with
  headers) yields an error for a row whose field count differs from the
  header's, and `record[1]`/`record[2]` panic when the index is out of
  bounds.
* `runModel` is the control flow of `run` (lines 66-145) over an abstract
  filesystem, recording which writes the program performs.
* `localTimestamp`/`birthdayAgeDays` model the zoned-timestamp difference
  in `print_birthday` (lines 198-210), with the zone's UTC offset at each
  of the two instants as an explicit parameter.
-/

namespace Days

/-! ## Calendar dates -/

/-- A naive calendar date, as `chrono::NaiveDate`: proleptic Gregorian
year/month/day, no time-of-day. -/
structure Date where
  year : Int
  month : Nat
  day : Nat
deriving DecidableEq

/-- Gregorian leap-year rule (as chrono implements it). -/
def isLeapYear (y : Int) : Bool :=
  (y % 4 == 0 && y % 100 != 0) || y % 400 == 0

/-- Number of days in a month of a given year; `0` for an invalid month
number. -/
def daysInMonth (y : Int) : Nat → Nat
  | 1 => 31
  | 2 => if isLeapYear y then 29 else 28
  | 3 => 31
  | 4 => 30
  | 5 => 31
  | 6 => 30
  | 7 => 31
  | 8 => 31
  | 9 => 30
  | 10 => 31
  | 11 => 30
  | 12 => 31
  | _ => 0

/-- Validity of a calendar date (what `NaiveDate::from_ymd_opt` checks). -/
def Date.isValid (d : Date) : Bool :=
  1 ≤ d.month && d.month ≤ 12 && 1 ≤ d.day && d.day ≤ daysInMonth d.year d.month

/-- The proleptic-Gregorian day number of a date, with 1970-01-01 as day 0
(the standard civil-from-days correspondence). `NaiveDate::signed_duration_since`
returns exactly the difference of these day numbers, in days. -/
def toDayNumber (dt : Date) : Int :=
  let y : Int := if dt.month ≤ 2 then dt.year - 1 else dt.year
  let era : Int := Int.fdiv y 400
  let yoe : Int := y - era * 400
  let mp : Int := (Int.ofNat dt.month + 9) % 12
  let doy : Int := Int.fdiv (153 * mp + 2) 5 + Int.ofNat dt.day - 1
  let doe : Int := yoe * 365 + Int.fdiv yoe 4 - Int.fdiv yoe 100 + doy
  era * 146097 + doe - 719468

/-- The spec's `days_between a b`: the signed whole-day count from date `a` to date
`b`; this is `b.signed_duration_since(a).num_days()` for naive dates. -/
def daysBetween (a b : Date) : Int :=
  toDayNumber b - toDayNumber a

/-! ## Events and classification -/

/-- The `struct Event` of main.rs. -/
structure Event where
  date : Date
  category : String
  description : String
deriving DecidableEq

/-- The `struct EventItem` of main.rs: an event annotated with its signed
day-offset from today. -/
structure EventItem where
  days : Int
  event : Event
deriving DecidableEq

/-- The three buckets filled by the loop in `run` (main.rs lines 101-114). -/
structure Buckets where
  past : List EventItem
  today : List EventItem
  future : List EventItem
deriving DecidableEq

/-- The classification loop of `run` (main.rs lines 101-114): for each
event, `day_count = event.date.signed_duration_since(today).num_days()`;
`day_count < 0` pushes to `past_items`, `day_count > 0` to `future_items`,
otherwise to `today_items`, preserving input order within each bucket. -/
def classify (events : List Event) (today : Date) : Buckets :=
  match events with
  | [] => ⟨[], [], []⟩
  | e :: rest =>
      let b := classify rest today
      let dayCount := daysBetween today e.date
      if dayCount < 0 then ⟨⟨dayCount, e⟩ :: b.past, b.today, b.future⟩
      else if dayCount > 0 then ⟨b.past, b.today, ⟨dayCount, e⟩ :: b.future⟩
      else ⟨b.past, ⟨dayCount, e⟩ :: b.today, b.future⟩

/-! ## Presenter (main.rs lines 117-135) -/

/-- Insert `x` into `l` after every element `y` with `le y x`; folding this
over a list is exactly a stable sort by the comparator "`a` precedes `b`
iff `le a b`", which is the behavior of Rust's stable `Vec::sort_by`. -/
def insertByRel (le : EventItem → EventItem → Bool) (x : EventItem) :
    List EventItem → List EventItem
  | [] => [x]
  | y :: ys => if le y x then y :: insertByRel le x ys else x :: y :: ys

/-- Stable sort by a total comparator: the unique output of Rust's
`sort_by` with comparator `le`. -/
def sortByRel (le : EventItem → EventItem → Bool) (l : List EventItem) :
    List EventItem :=
  l.foldl (fun acc x => insertByRel le x acc) []

/-- Comparator of `past_items.sort_by(|a, b| b.days.cmp(&a.days))`:
`a` precedes `b` iff `b.days ≤ a.days` (descending by `days`). -/
def pastLe (a b : EventItem) : Bool := decide (b.days ≤ a.days)

/-- Comparator of `future_items.sort_by(|a, b| a.days.cmp(&b.days))`:
`a` precedes `b` iff `a.days ≤ b.days` (ascending by `days`). -/
def futureLe (a b : EventItem) : Bool := decide (a.days ≤ b.days)

/-- The past-bucket rendering of `run` (lines 117-122): sort descending by
`days`, then print each event with `item.days.abs()` as "N days ago". -/
def presentPast (items : List EventItem) : List (Event × Nat) :=
  (sortByRel pastLe items).map (fun it => (it.event, it.days.natAbs))

/-- The future-bucket rendering of `run` (lines 130-135): sort ascending by
`days`, then print each event with `item.days` as "in N days". -/
def presentFuture (items : List EventItem) : List (Event × Int) :=
  (sortByRel futureLe items).map (fun it => (it.event, it.days))

/-! ## Date text: `NaiveDate` `Display` and `parse_from_str "%Y-%m-%d"` -/

/-- The character for a decimal digit value. -/
def digitChar (d : Nat) : Char := Char.ofNat (48 + d)

/-- The decimal value of a digit character. -/
def charDigit (c : Char) : Nat := c.toNat - 48

/-- Is `c` an ASCII decimal digit? -/
def isDig (c : Char) : Bool := decide (48 ≤ c.toNat) && decide (c.toNat ≤ 57)

/-- Base-10 digits of `n`, least significant first, with explicit fuel so
the definition is structural (`[]` for `n = 0`). -/
def digitsRevAux : Nat → Nat → List Nat
  | 0, _ => []
  | f + 1, n => if n = 0 then [] else n % 10 :: digitsRevAux f (n / 10)

/-- The decimal digit characters of `n`, most significant first (empty for
`n = 0`, as Rust's `{}` formatting of `0` is handled by the padding). -/
def natDigitChars (n : Nat) : List Char :=
  ((digitsRevAux n n).reverse).map digitChar

/-- Left-pad with `'0'` to width `w` (Rust `{:0w}` numeric padding). -/
def padLeft (w : Nat) (l : List Char) : List Char :=
  List.replicate (w - l.length) '0' ++ l

/-- The year part of `NaiveDate`'s `Display`: `{:04}` for years `0..=9999`,
otherwise `{:+05}` (an explicit sign followed by the magnitude, zero-padded
to four digits). -/
def formatYear (y : Int) : List Char :=
  if 0 ≤ y ∧ y ≤ 9999 then padLeft 4 (natDigitChars y.toNat)
  else if y < 0 then '-' :: padLeft 4 (natDigitChars (-y).toNat)
  else '+' :: padLeft 4 (natDigitChars y.toNat)

/-- A two-digit zero-padded field (`{:02}`, for month and day). -/
def format2 (n : Nat) : List Char := padLeft 2 (natDigitChars n)

/-- The `Display` (and `to_string`) rendering of a `NaiveDate`: `YYYY-MM-DD`. -/
def formatDate (d : Date) : List Char :=
  formatYear d.year ++ '-' :: (format2 d.month ++ '-' :: format2 d.day)

/-- Take at most `w` leading digit characters (chrono's `scan::number`). -/
def grabDigits : Nat → List Char → List Char × List Char
  | 0, cs => ([], cs)
  | _ + 1, [] => ([], [])
  | w + 1, c :: cs =>
      if isDig c then (c :: (grabDigits w cs).1, (grabDigits w cs).2)
      else ([], c :: cs)

/-- The value of a run of digit characters, most significant first. -/
def digitsVal (ds : List Char) : Nat :=
  ds.foldl (fun a c => a * 10 + charDigit c) 0

/-- Parse an unsigned decimal number of at most `w` digits (at least one),
returning the value and the remaining input (chrono `scan::number(s, 1, w)`). -/
def parseUnsigned (w : Nat) (cs : List Char) : Option (Nat × List Char) :=
  match grabDigits w cs with
  | ([], _) => none
  | (ds, rest) => some (digitsVal ds, rest)

/-- chrono's numeric scanner skips leading whitespace before each field. -/
def skipWs (cs : List Char) : List Char := cs.dropWhile Char.isWhitespace

/-- The `%Y` field of chrono's parser: after skipping whitespace, an
explicit `-` or `+` sign makes the digit run unbounded; with no sign, at
most four digits are consumed. -/
def parseYearText (cs0 : List Char) : Option (Int × List Char) :=
  match skipWs cs0 with
  | [] => none
  | c :: rest =>
      if c = '-' then
        match parseUnsigned rest.length rest with
        | some (n, r) => some (-(n : Int), r)
        | none => none
      else if c = '+' then
        match parseUnsigned rest.length rest with
        | some (n, r) => some ((n : Int), r)
        | none => none
      else
        match parseUnsigned 4 (c :: rest) with
        | some (n, r) => some ((n : Int), r)
        | none => none

/-- A `%m`/`%d` field: whitespace skip, then at most two digits. -/
def parseNum2 (cs0 : List Char) : Option (Nat × List Char) :=
  parseUnsigned 2 (skipWs cs0)

/-- Model of `NaiveDate::parse_from_str(s, "%Y-%m-%d")`: year, literal `-`, month,
literal `-`, day, end of input, then calendar validation (the resolution
of the `Parsed` fields into a `NaiveDate`). -/
def parseDateText (cs : List Char) : Option Date :=
  match parseYearText cs with
  | none => none
  | some (y, r1) =>
      match r1 with
      | '-' :: r2 =>
          match parseNum2 r2 with
          | none => none
          | some (m, r3) =>
              match r3 with
              | '-' :: r4 =>
                  match parseNum2 r4 with
                  | none => none
                  | some (d, r5) =>
                      if r5.isEmpty then
                        if (Date.mk y m d).isValid then some ⟨y, m, d⟩ else none
                      else none
              | _ => none
      | _ => none

/-- The row written for one event by `write_events` (main.rs line 169):
`[event.date.to_string(), event.category, event.description]`. -/
def encode_row (e : Event) : List String :=
  [String.mk (formatDate e.date), e.category, e.description]

/-- The per-row decoding of `read_events` (main.rs lines 151-156) as the
spec's `decode_row`: field 0 parsed as a `%Y-%m-%d` date, field 1 the
category, field 2 the description. -/
def decode_row (fields : List String) : Option Event :=
  match fields with
  | dateF :: categoryF :: descriptionF :: _ =>
      match parseDateText dateF.data with
      | some d => some ⟨d, categoryF, descriptionF⟩
      | none => none
  | _ => none

/-- The value of a base-10 digit list, least significant digit first
(specification device for the digit lemmas). -/
def valLSF : List Nat → Nat
  | [] => 0
  | d :: ds => d + 10 * valLSF ds

/-! ## Event store: `read_events` (main.rs lines 147-163) -/

/-- Outcome of `read_events` on an openable file, viewed at the level of
already field-split records:
* `panicked`: a `record[1]`/`record[2]` index was out of bounds (the `csv`
  `StringRecord` `Index` impl panics);
* `csvError`: the `csv` reader yielded `Err` for a record (with the default
  non-flexible reader, a row whose field count differs from the header's is
  an `UnequalLengths` error), which `read_events` propagates via `?`;
* `ok events diags`: the loop finished, pushing `events` and emitting
  `diags` "Invalid timestamp" diagnostics for rows whose date field failed
  to parse. -/
inductive ReadOutcome where
  | panicked
  | csvError
  | ok (events : List Event) (diags : Nat)
deriving DecidableEq

/-- The record loop of `read_events`: `hlen` is the header's field count
(the expected record length the `csv` reader enforces); `acc` and `diags`
accumulate pushed events (reversed) and emitted diagnostics. For each row:
a length mismatch is a reader error propagated by `result?`; otherwise
`record[1]`/`record[2]` panic when the row has fewer than three fields;
otherwise the date field either parses (push an `Event`) or is skipped
with one diagnostic. -/
def readRows (hlen : Nat) : List (List String) → List Event → Nat → ReadOutcome
  | [], acc, diags => .ok acc.reverse diags
  | row :: rest, acc, diags =>
      if row.length ≠ hlen then .csvError
      else if row.length < 3 then .panicked
      else
        match parseDateText (row.getD 0 "").data with
        | some d => readRows hlen rest (⟨d, row.getD 1 "", row.getD 2 ""⟩ :: acc) diags
        | none => readRows hlen rest acc (diags + 1)

/-- Model of `read_events` over a file whose header row is `header` and whose data
rows are `rows`. -/
def readEvents (header : List String) (rows : List (List String)) : ReadOutcome :=
  readRows header.length rows [] 0

/-! ## The `run` function (main.rs lines 66-145) -/

/-- The `enum DaysError` of main.rs. -/
inductive DaysError where
  | homeDirectoryNotFound
  | workingDirectoryNotFound
  | createError
  | writeError
  | readError
  | invalidDate
deriving DecidableEq

/-- Outcome of a `run` invocation: a panic escaping from `read_events`, an
error return, or success carrying the classified buckets it displayed. -/
inductive RunOutcome where
  | panicked
  | error (e : DaysError)
  | ok (b : Buckets)
deriving DecidableEq

/-- The filesystem/environment facts `run` consults: whether
`dirs::home_dir()` yields a path, whether `~/.days` exists, whether
`create_dir` would succeed, whether `~/.days/events.csv` exists, whether
the `csv` reader can open it, the file's field-split contents, and the
current local date. -/
structure RunInput where
  homeFound : Bool
  dirExists : Bool
  createOk : Bool
  fileExists : Bool
  openOk : Bool
  header : List String
  rows : List (List String)
  today : Date

/-- The writes `run` performs: whether it created `~/.days`, and every row
write to `events.csv` (the program defines `write_events` but never calls
it, so this list stays empty on every path). -/
structure RunTrace where
  createdDir : Bool
  eventsFileWrites : List (List String)
deriving DecidableEq

/-- The part of `run` from line 88: read and classify only if `events.csv`
exists; an absent file is silently skipped and the (empty) buckets are
displayed. -/
def runBody (inp : RunInput) (createdDir : Bool) : RunOutcome × RunTrace :=
  if inp.fileExists then
    if inp.openOk then
      match readEvents inp.header inp.rows with
      | .panicked => (.panicked, ⟨createdDir, []⟩)
      | .csvError => (.error .readError, ⟨createdDir, []⟩)
      | .ok evs _ => (.ok (classify evs inp.today), ⟨createdDir, []⟩)
    else (.error .readError, ⟨createdDir, []⟩)
  else (.ok (classify [] inp.today), ⟨createdDir, []⟩)

/-- Model of `run` (main.rs lines 66-145): resolve `~/.days` (error if no home
directory), create it if missing (error if creation fails), then load,
classify and display. -/
def runModel (inp : RunInput) : RunOutcome × RunTrace :=
  if inp.homeFound then
    if inp.dirExists then runBody inp false
    else if inp.createOk then runBody inp true
    else (.error .createError, ⟨false, []⟩)
  else (.error .workingDirectoryNotFound, ⟨false, []⟩)

/-! ## Birthday annotator: `print_birthday` (main.rs lines 194-221) -/

/-- The birthday-match test of `print_birthday` (line 204):
`birthday.month() == today.month() && birthday.day() == today.day()`. -/
def birthdayMatch (birthday today : Date) : Bool :=
  birthday.month == today.month && birthday.day == today.day

/-- The UTC timestamp, in seconds, of the local datetime with calendar date
`d`, seconds-of-day `tod`, in a zone whose UTC offset at that instant is
`off` seconds. `print_birthday` builds two such `DateTime<Local>` values
(line 198 and lines 200-202, the latter reusing today's time-of-day). -/
def localTimestamp (d : Date) (tod off : Int) : Int :=
  toDayNumber d * 86400 + tod - off

/-- The day count printed by `print_birthday` (lines 208-210):
`today.signed_duration_since(birthday_dt).num_days()`, i.e. the difference
of the two zoned instants in seconds, divided by 86400 rounding toward
zero (`Duration::num_days`). `offB` and `offT` are the local zone's UTC
offsets at the birthday instant and at now. -/
def birthdayAgeDays (birthdate todayDate : Date) (tod offB offT : Int) : Int :=
  Int.tdiv (localTimestamp todayDate tod offT - localTimestamp birthdate tod offB) 86400

/-- The concrete `RunInput` with the events file absent (home directory
found, `~/.days` present). -/
def absentFileInput : RunInput :=
  ⟨true, true, true, false, true, [], [], ⟨2024, 3, 15⟩⟩

/-! ## Classification theorems -/

theorem classify_past_eq (events : List Event) (today : Date) :
    (classify events today).past =
      (events.filter (fun e => decide (daysBetween today e.date < 0))).map
        (fun e => ⟨daysBetween today e.date, e⟩) := by
  induction events with
  | nil => rfl
  | cons e rest ih =>
      simp only [classify, List.filter_cons]
      rcases lt_trichotomy (daysBetween today e.date) 0 with h | h | h
      · rw [if_pos h]
        simp [h, ih]
      · rw [if_neg (by omega), if_neg (by omega)]
        simp [h, ih]
      · rw [if_neg (by omega), if_pos h]
        simp [show ¬ daysBetween today e.date < 0 by omega, ih]

theorem classify_today_eq (events : List Event) (today : Date) :
    (classify events today).today =
      (events.filter (fun e => decide (daysBetween today e.date = 0))).map
        (fun e => ⟨daysBetween today e.date, e⟩) := by
  induction events with
  | nil => rfl
  | cons e rest ih =>
      simp only [classify, List.filter_cons]
      rcases lt_trichotomy (daysBetween today e.date) 0 with h | h | h
      · rw [if_pos h]
        simp [show ¬ daysBetween today e.date = 0 by omega, ih]
      · rw [if_neg (by omega), if_neg (by omega)]
        simp [h, ih]
      · rw [if_neg (by omega), if_pos h]
        simp [show ¬ daysBetween today e.date = 0 by omega, ih]

theorem classify_future_eq (events : List Event) (today : Date) :
    (classify events today).future =
      (events.filter (fun e => decide (0 < daysBetween today e.date))).map
        (fun e => ⟨daysBetween today e.date, e⟩) := by
  induction events with
  | nil => rfl
  | cons e rest ih =>
      simp only [classify, List.filter_cons]
      rcases lt_trichotomy (daysBetween today e.date) 0 with h | h | h
      · rw [if_pos h]
        simp [show ¬ 0 < daysBetween today e.date by omega, ih]
      · rw [if_neg (by omega), if_neg (by omega)]
        simp [show ¬ 0 < daysBetween today e.date by omega, ih]
      · rw [if_neg (by omega), if_pos h]
        simp [h, ih]

theorem classify_length_sum (events : List Event) (today : Date) :
    (classify events today).past.length + (classify events today).today.length
      + (classify events today).future.length = events.length := by
  induction events with
  | nil => rfl
  | cons e rest ih =>
      simp only [classify]
      rcases lt_trichotomy (daysBetween today e.date) 0 with h | h | h
      · rw [if_pos h]; simp only [List.length_cons, List.length]; omega
      · rw [if_neg (by omega), if_neg (by omega)]
        simp only [List.length_cons, List.length]; omega
      · rw [if_neg (by omega), if_pos h]
        simp only [List.length_cons, List.length]; omega

/-- C1: for every list of events and every date `today`, the bucketing loop
of `run` places each event in exactly one of the three buckets (past,
today, future), and the sizes of the three buckets sum to the number of
input events. -/
theorem classify_exhaustive_partition (events : List Event) (today : Date) :
    ((classify events today).past.length + (classify events today).today.length
        + (classify events today).future.length = events.length)
    ∧ (∀ e ∈ events,
        (e ∈ (classify events today).past.map EventItem.event
            ∧ e ∉ (classify events today).today.map EventItem.event
            ∧ e ∉ (classify events today).future.map EventItem.event)
        ∨ (e ∉ (classify events today).past.map EventItem.event
            ∧ e ∈ (classify events today).today.map EventItem.event
            ∧ e ∉ (classify events today).future.map EventItem.event)
        ∨ (e ∉ (classify events today).past.map EventItem.event
            ∧ e ∉ (classify events today).today.map EventItem.event
            ∧ e ∈ (classify events today).future.map EventItem.event)) := by
  refine ⟨classify_length_sum events today, ?_⟩
  intro e he
  have hp : e ∈ (classify events today).past.map EventItem.event
      ↔ daysBetween today e.date < 0 := by
    rw [classify_past_eq]
    simp only [List.map_map, List.mem_map, Function.comp, List.mem_filter,
      decide_eq_true_iff]
    constructor
    · rintro ⟨x, ⟨hx, hlt⟩, rfl⟩; exact hlt
    · intro hlt; exact ⟨e, ⟨he, hlt⟩, rfl⟩
  have ht : e ∈ (classify events today).today.map EventItem.event
      ↔ daysBetween today e.date = 0 := by
    rw [classify_today_eq]
    simp only [List.map_map, List.mem_map, Function.comp, List.mem_filter,
      decide_eq_true_iff]
    constructor
    · rintro ⟨x, ⟨hx, hz⟩, rfl⟩; exact hz
    · intro hz; exact ⟨e, ⟨he, hz⟩, rfl⟩
  have hf : e ∈ (classify events today).future.map EventItem.event
      ↔ 0 < daysBetween today e.date := by
    rw [classify_future_eq]
    simp only [List.map_map, List.mem_map, Function.comp, List.mem_filter,
      decide_eq_true_iff]
    constructor
    · rintro ⟨x, ⟨hx, hgt⟩, rfl⟩; exact hgt
    · intro hgt; exact ⟨e, ⟨he, hgt⟩, rfl⟩
  rcases lt_trichotomy (daysBetween today e.date) 0 with h | h | h
  · exact Or.inl ⟨hp.mpr h, fun c => absurd (ht.mp c) (by omega),
      fun c => absurd (hf.mp c) (by omega)⟩
  · exact Or.inr (Or.inl ⟨fun c => absurd (hp.mp c) (by omega), ht.mpr h,
      fun c => absurd (hf.mp c) (by omega)⟩)
  · exact Or.inr (Or.inr ⟨fun c => absurd (hp.mp c) (by omega),
      fun c => absurd (ht.mp c) (by omega), hf.mpr h⟩)

/-- Witness for C1 at a concrete one-event list. -/
theorem classify_exhaustive_partition_witness :
    ((classify [⟨⟨2024, 3, 14⟩, "a", "b"⟩] ⟨2024, 3, 15⟩).past.length
        + (classify [⟨⟨2024, 3, 14⟩, "a", "b"⟩] ⟨2024, 3, 15⟩).today.length
        + (classify [⟨⟨2024, 3, 14⟩, "a", "b"⟩] ⟨2024, 3, 15⟩).future.length = 1)
    ∧ (((⟨⟨2024, 3, 14⟩, "a", "b"⟩ : Event)
          ∈ (classify [⟨⟨2024, 3, 14⟩, "a", "b"⟩] ⟨2024, 3, 15⟩).past.map EventItem.event
        ∧ (⟨⟨2024, 3, 14⟩, "a", "b"⟩ : Event)
          ∉ (classify [⟨⟨2024, 3, 14⟩, "a", "b"⟩] ⟨2024, 3, 15⟩).today.map EventItem.event
        ∧ (⟨⟨2024, 3, 14⟩, "a", "b"⟩ : Event)
          ∉ (classify [⟨⟨2024, 3, 14⟩, "a", "b"⟩] ⟨2024, 3, 15⟩).future.map EventItem.event)
      ∨ ((⟨⟨2024, 3, 14⟩, "a", "b"⟩ : Event)
          ∉ (classify [⟨⟨2024, 3, 14⟩, "a", "b"⟩] ⟨2024, 3, 15⟩).past.map EventItem.event
        ∧ (⟨⟨2024, 3, 14⟩, "a", "b"⟩ : Event)
          ∈ (classify [⟨⟨2024, 3, 14⟩, "a", "b"⟩] ⟨2024, 3, 15⟩).today.map EventItem.event
        ∧ (⟨⟨2024, 3, 14⟩, "a", "b"⟩ : Event)
          ∉ (classify [⟨⟨2024, 3, 14⟩, "a", "b"⟩] ⟨2024, 3, 15⟩).future.map EventItem.event)
      ∨ ((⟨⟨2024, 3, 14⟩, "a", "b"⟩ : Event)
          ∉ (classify [⟨⟨2024, 3, 14⟩, "a", "b"⟩] ⟨2024, 3, 15⟩).past.map EventItem.event
        ∧ (⟨⟨2024, 3, 14⟩, "a", "b"⟩ : Event)
          ∉ (classify [⟨⟨2024, 3, 14⟩, "a", "b"⟩] ⟨2024, 3, 15⟩).today.map EventItem.event
        ∧ (⟨⟨2024, 3, 14⟩, "a", "b"⟩ : Event)
          ∈ (classify [⟨⟨2024, 3, 14⟩, "a", "b"⟩] ⟨2024, 3, 15⟩).future.map EventItem.event)) :=
  ⟨(classify_exhaustive_partition [⟨⟨2024, 3, 14⟩, "a", "b"⟩] ⟨2024, 3, 15⟩).1,
    (classify_exhaustive_partition [⟨⟨2024, 3, 14⟩, "a", "b"⟩] ⟨2024, 3, 15⟩).2
      ⟨⟨2024, 3, 14⟩, "a", "b"⟩ (by decide)⟩

/-- C2: the classifier computes each event's offset as
`days_between(today, event.date)` (a pure calendar-day difference), and an
event dated one day before today gets offset `-1` and lands in the past
bucket, one day after gets `+1` and lands in the future bucket, and one
dated exactly today gets `0` and lands in the today bucket. -/
theorem classify_offset_signs (e : Event) (today : Date) :
    (daysBetween today e.date = toDayNumber e.date - toDayNumber today)
    ∧ (∀ events : List Event, ∀ it : EventItem,
        (it ∈ (classify events today).past ∨ it ∈ (classify events today).today
          ∨ it ∈ (classify events today).future) →
        it.days = daysBetween today it.event.date)
    ∧ (toDayNumber e.date = toDayNumber today - 1 →
        daysBetween today e.date = -1
          ∧ classify [e] today = ⟨[⟨-1, e⟩], [], []⟩)
    ∧ (toDayNumber e.date = toDayNumber today + 1 →
        daysBetween today e.date = 1
          ∧ classify [e] today = ⟨[], [], [⟨1, e⟩]⟩)
    ∧ (toDayNumber e.date = toDayNumber today →
        daysBetween today e.date = 0
          ∧ classify [e] today = ⟨[], [⟨0, e⟩], []⟩) := by
  refine ⟨rfl, ?_, ?_, ?_, ?_⟩
  · intro events it hmem
    rcases hmem with h | h | h
    · rw [classify_past_eq] at h
      rcases List.mem_map.mp h with ⟨x, _, rfl⟩; rfl
    · rw [classify_today_eq] at h
      rcases List.mem_map.mp h with ⟨x, _, rfl⟩; rfl
    · rw [classify_future_eq] at h
      rcases List.mem_map.mp h with ⟨x, _, rfl⟩; rfl
  · intro h
    have hd : daysBetween today e.date = -1 := by
      unfold daysBetween; omega
    refine ⟨hd, ?_⟩
    simp [classify, hd]
  · intro h
    have hd : daysBetween today e.date = 1 := by
      unfold daysBetween; omega
    refine ⟨hd, ?_⟩
    simp [classify, hd]
  · intro h
    have hd : daysBetween today e.date = 0 := by
      unfold daysBetween; omega
    refine ⟨hd, ?_⟩
    simp [classify, hd]

/-- Witness for C2, at concrete dates around 2024-03-15. -/
theorem classify_offset_signs_witness :
    (daysBetween ⟨2024, 3, 15⟩ ⟨2024, 3, 14⟩ = -1
      ∧ classify [⟨⟨2024, 3, 14⟩, "a", "b"⟩] ⟨2024, 3, 15⟩
          = ⟨[⟨-1, ⟨⟨2024, 3, 14⟩, "a", "b"⟩⟩], [], []⟩)
    ∧ (daysBetween ⟨2024, 3, 15⟩ ⟨2024, 3, 16⟩ = 1
      ∧ classify [⟨⟨2024, 3, 16⟩, "a", "b"⟩] ⟨2024, 3, 15⟩
          = ⟨[], [], [⟨1, ⟨⟨2024, 3, 16⟩, "a", "b"⟩⟩]⟩)
    ∧ (daysBetween ⟨2024, 3, 15⟩ ⟨2024, 3, 15⟩ = 0
      ∧ classify [⟨⟨2024, 3, 15⟩, "a", "b"⟩] ⟨2024, 3, 15⟩
          = ⟨[], [⟨0, ⟨⟨2024, 3, 15⟩, "a", "b"⟩⟩], []⟩) :=
  ⟨(classify_offset_signs ⟨⟨2024, 3, 14⟩, "a", "b"⟩ ⟨2024, 3, 15⟩).2.2.1
      (by decide),
    (classify_offset_signs ⟨⟨2024, 3, 16⟩, "a", "b"⟩ ⟨2024, 3, 15⟩).2.2.2.1
      (by decide),
    (classify_offset_signs ⟨⟨2024, 3, 15⟩, "a", "b"⟩ ⟨2024, 3, 15⟩).2.2.2.2
      (by decide)⟩

/-! ## Presenter theorems -/

theorem mem_insertByRel (le : EventItem → EventItem → Bool) (x a : EventItem)
    (l : List EventItem) : a ∈ insertByRel le x l ↔ a = x ∨ a ∈ l := by
  induction l with
  | nil => simp [insertByRel]
  | cons y ys ih =>
      by_cases h : le y x = true
      · simp only [insertByRel, if_pos h, List.mem_cons, ih]
        tauto
      · simp only [insertByRel, if_neg h, List.mem_cons]

theorem pairwise_insertByRel (le : EventItem → EventItem → Bool)
    (htot : ∀ a b, le a b = true ∨ le b a = true)
    (htrans : ∀ a b c, le a b = true → le b c = true → le a c = true)
    (x : EventItem) (l : List EventItem)
    (h : l.Pairwise (fun a b => le a b = true)) :
    (insertByRel le x l).Pairwise (fun a b => le a b = true) := by
  induction l with
  | nil => simp [insertByRel]
  | cons y ys ih =>
      rcases List.pairwise_cons.mp h with ⟨hy, hys⟩
      by_cases hle : le y x = true
      · rw [insertByRel, if_pos hle]
        refine List.pairwise_cons.mpr ⟨?_, ih hys⟩
        intro z hz
        rcases (mem_insertByRel le x z ys).mp hz with rfl | hz'
        · exact hle
        · exact hy z hz'
      · rw [insertByRel, if_neg hle]
        have hxy : le x y = true := by
          rcases htot x y with h' | h'
          · exact h'
          · exact absurd h' hle
        refine List.pairwise_cons.mpr ⟨?_, h⟩
        intro z hz
        rcases List.mem_cons.mp hz with rfl | hz'
        · exact hxy
        · exact htrans x y z hxy (hy z hz')

theorem pairwise_sortByRel (le : EventItem → EventItem → Bool)
    (htot : ∀ a b, le a b = true ∨ le b a = true)
    (htrans : ∀ a b c, le a b = true → le b c = true → le a c = true)
    (l : List EventItem) :
    (sortByRel le l).Pairwise (fun a b => le a b = true) := by
  suffices h : ∀ acc : List EventItem, acc.Pairwise (fun a b => le a b = true) →
      (l.foldl (fun acc x => insertByRel le x acc) acc).Pairwise
        (fun a b => le a b = true) by
    exact h [] (List.Pairwise.nil)
  induction l with
  | nil => intro acc hacc; exact hacc
  | cons x xs ih =>
      intro acc hacc
      exact ih (insertByRel le x acc) (pairwise_insertByRel le htot htrans x acc hacc)

/-- C6: the presenter renders past events in descending order of offset
(each shown with its magnitude, so past offsets `{-5, -1, -10}` render in
the order `-1, -5, -10` as `1, 5, 10` days ago) and future events in
ascending order of offset (`{5, 1, 10}` renders as `1, 5, 10`). -/
theorem presenter_ordering :
    (∀ items : List EventItem,
        (sortByRel pastLe items).Pairwise (fun a b => b.days ≤ a.days))
    ∧ (∀ items : List EventItem,
        (sortByRel futureLe items).Pairwise (fun a b => a.days ≤ b.days))
    ∧ (∀ ea eb ec : Event,
        presentPast [⟨-5, ea⟩, ⟨-1, eb⟩, ⟨-10, ec⟩]
          = [(eb, 1), (ea, 5), (ec, 10)])
    ∧ (∀ ea eb ec : Event,
        presentFuture [⟨5, ea⟩, ⟨1, eb⟩, ⟨10, ec⟩]
          = [(eb, 1), (ea, 5), (ec, 10)]) := by
  refine ⟨?_, ?_, ?_, ?_⟩
  · intro items
    have := pairwise_sortByRel pastLe
      (fun a b => by unfold pastLe; rcases le_total b.days a.days with h | h <;> simp [h])
      (fun a b c hab hbc => by
        simp only [pastLe, decide_eq_true_iff] at *; omega)
      items
    exact this.imp (fun h => by
      simpa only [pastLe, decide_eq_true_iff] using h)
  · intro items
    have := pairwise_sortByRel futureLe
      (fun a b => by unfold futureLe; rcases le_total a.days b.days with h | h <;> simp [h])
      (fun a b c hab hbc => by
        simp only [futureLe, decide_eq_true_iff] at *; omega)
      items
    exact this.imp (fun h => by
      simpa only [futureLe, decide_eq_true_iff] using h)
  · intro ea eb ec
    simp [presentPast, sortByRel, insertByRel, pastLe, List.foldl]
  · intro ea eb ec
    simp [presentFuture, sortByRel, insertByRel, futureLe, List.foldl]

/-! ## Decimal digit lemmas -/

theorem charDigit_digitChar (d : Nat) (h : d < 10) :
    charDigit (digitChar d) = d := by
  interval_cases d <;> decide

theorem isDig_digitChar (d : Nat) (h : d < 10) :
    isDig (digitChar d) = true := by
  interval_cases d <;> decide

theorem mem_digitsRevAux (f : Nat) :
    ∀ n : Nat, ∀ d ∈ digitsRevAux f n, d < 10 := by
  induction f with
  | zero =>
      intro n d hd
      simp [digitsRevAux] at hd
  | succ f ih =>
      intro n d hd
      by_cases h : n = 0
      · simp [digitsRevAux, h] at hd
      · simp only [digitsRevAux, if_neg h, List.mem_cons] at hd
        rcases hd with rfl | hd'
        · exact Nat.mod_lt _ (by norm_num)
        · exact ih (n / 10) d hd'

theorem valLSF_digitsRevAux (f : Nat) :
    ∀ n : Nat, n ≤ f → valLSF (digitsRevAux f n) = n := by
  induction f with
  | zero =>
      intro n hn
      interval_cases n
      rfl
  | succ f ih =>
      intro n hn
      by_cases h : n = 0
      · subst h; simp [digitsRevAux, valLSF]
      · simp only [digitsRevAux, if_neg h, valLSF]
        have h10 : n / 10 ≤ f := by
          have := Nat.div_lt_self (Nat.pos_of_ne_zero h) (by norm_num : 1 < 10)
          omega
        rw [ih (n / 10) h10]
        omega

theorem length_digitsRevAux (f : Nat) :
    ∀ n k : Nat, n ≤ f → n < 10 ^ k → (digitsRevAux f n).length ≤ k := by
  induction f with
  | zero =>
      intro n k hn _
      interval_cases n
      simp [digitsRevAux]
  | succ f ih =>
      intro n k hn hk
      by_cases h : n = 0
      · simp [digitsRevAux, h]
      · cases k with
        | zero => simp at hk; omega
        | succ k =>
            simp only [digitsRevAux, if_neg h, List.length_cons]
            have h1 : n / 10 ≤ f := by
              have := Nat.div_lt_self (Nat.pos_of_ne_zero h) (by norm_num : 1 < 10)
              omega
            have h2 : n / 10 < 10 ^ k := by
              rw [Nat.div_lt_iff_lt_mul (by norm_num : 0 < 10)]
              calc n < 10 ^ (k + 1) := hk
                _ = 10 ^ k * 10 := by ring
            have := ih (n / 10) k h1 h2
            omega

theorem length_natDigitChars (n k : Nat) (h : n < 10 ^ k) :
    (natDigitChars n).length ≤ k := by
  simpa [natDigitChars] using length_digitsRevAux n n k le_rfl h

theorem foldl_digits_replicate (k : Nat) :
    List.foldl (fun a c => a * 10 + charDigit c) 0 (List.replicate k '0') = 0 := by
  induction k with
  | zero => rfl
  | succ k ih =>
      rw [List.replicate_succ, List.foldl_cons]
      have h0 : (0 * 10 + charDigit '0') = 0 := by decide
      rw [h0]
      exact ih

theorem foldl_digits_append (lsf : List Nat) :
    ∀ a : Nat, (∀ d ∈ lsf, d < 10) →
      List.foldl (fun a c => a * 10 + charDigit c) a ((lsf.map digitChar).reverse)
        = a * 10 ^ lsf.length + valLSF lsf := by
  induction lsf with
  | nil => intro a _; simp [valLSF]
  | cons d ds ih =>
      intro a hmem
      have hd : d < 10 := hmem d (List.mem_cons_self d ds)
      simp only [List.map_cons, List.reverse_cons, List.foldl_append,
        List.foldl_cons, List.foldl_nil]
      rw [ih a (fun x hx => hmem x (List.mem_cons_of_mem d hx)),
        charDigit_digitChar d hd]
      simp only [valLSF, List.length_cons]
      ring

theorem digitsVal_padLeft (w n : Nat) :
    digitsVal (padLeft w (natDigitChars n)) = n := by
  unfold digitsVal padLeft natDigitChars
  rw [List.foldl_append, foldl_digits_replicate, List.map_reverse,
    foldl_digits_append (digitsRevAux n n) 0 (mem_digitsRevAux n n)]
  rw [valLSF_digitsRevAux n n le_rfl]
  ring

theorem isDig_padLeft (w n : Nat) :
    ∀ c ∈ padLeft w (natDigitChars n), isDig c = true := by
  intro c hc
  rcases List.mem_append.mp hc with h | h
  · rw [List.eq_of_mem_replicate h]; decide
  · rcases List.mem_map.mp h with ⟨d, hd, rfl⟩
    exact isDig_digitChar d (mem_digitsRevAux n n d (List.mem_reverse.mp hd))

theorem length_padLeft (w : Nat) (l : List Char) :
    (padLeft w l).length = max w l.length := by
  simp [padLeft]
  omega

theorem padLeft_head (w n : Nat) (hw : 1 ≤ w) :
    ∃ c cs, padLeft w (natDigitChars n) = c :: cs ∧ isDig c = true := by
  cases hpl : padLeft w (natDigitChars n) with
  | nil =>
      have := length_padLeft w (natDigitChars n)
      rw [hpl] at this
      simp at this
      omega
  | cons c cs =>
      refine ⟨c, cs, rfl, ?_⟩
      exact isDig_padLeft w n c (hpl ▸ List.mem_cons_self c cs)

/-! ## Scanner lemmas -/

theorem grabDigits_exact (ds : List Char) :
    ∀ (w : Nat) (r : List Char), (∀ c ∈ ds, isDig c = true) → ds.length ≤ w →
      (r = [] ∨ ∃ c cs, r = c :: cs ∧ isDig c = false) →
      grabDigits w (ds ++ r) = (ds, r) := by
  induction ds with
  | nil =>
      intro w r _ _ hr
      cases w with
      | zero => rfl
      | succ w =>
          rcases hr with rfl | ⟨c, cs, rfl, hc⟩
          · rfl
          · simp [grabDigits, hc]
  | cons d ds ih =>
      intro w r hmem hlen hr
      cases w with
      | zero => simp at hlen
      | succ w =>
          have hd : isDig d = true := hmem d (List.mem_cons_self d ds)
          simp only [List.cons_append, grabDigits, if_pos hd]
          show (d :: (grabDigits w (ds ++ r)).1, (grabDigits w (ds ++ r)).2)
            = (d :: ds, r)
          rw [ih w r (fun c hc => hmem c (List.mem_cons_of_mem d hc))
            (by simpa using hlen) hr]

theorem parseUnsigned_padded (W w n : Nat) (r : List Char)
    (hw : 1 ≤ w)
    (hlen : (padLeft w (natDigitChars n)).length ≤ W)
    (hr : r = [] ∨ ∃ c cs, r = c :: cs ∧ isDig c = false) :
    parseUnsigned W (padLeft w (natDigitChars n) ++ r) = some (n, r) := by
  obtain ⟨c, cs, hpl, _⟩ := padLeft_head w n hw
  have hgrab := grabDigits_exact (padLeft w (natDigitChars n)) W r
    (isDig_padLeft w n) hlen hr
  unfold parseUnsigned
  rw [hgrab, hpl]
  show some (digitsVal (c :: cs), r) = some (n, r)
  rw [← hpl, digitsVal_padLeft]

theorem skipWs_eq_self (c : Char) (cs : List Char) (h : 43 ≤ c.toNat) :
    skipWs (c :: cs) = c :: cs := by
  have hws : c.isWhitespace = false := by
    simp only [Char.isWhitespace, Bool.or_eq_false_iff, decide_eq_false_iff_not]
    refine ⟨⟨⟨fun h1 => ?_, fun h1 => ?_⟩, fun h1 => ?_⟩, fun h1 => ?_⟩ <;>
      (subst h1; exact absurd h (by decide))
  unfold skipWs
  rw [List.dropWhile_cons, hws]
  simp

theorem isDig_ne_dash (c : Char) (h : isDig c = true) : ¬ c = '-' := by
  intro h1; subst h1; exact absurd h (by decide)

theorem isDig_ne_plus (c : Char) (h : isDig c = true) : ¬ c = '+' := by
  intro h1; subst h1; exact absurd h (by decide)

theorem isDig_ge_43 (c : Char) (h : isDig c = true) : 43 ≤ c.toNat := by
  simp only [isDig, Bool.and_eq_true, decide_eq_true_iff] at h
  omega

theorem parseYearText_nosign (c : Char) (cs : List Char) (hdig : isDig c = true) :
    parseYearText (c :: cs) =
      match parseUnsigned 4 (c :: cs) with
      | some (n, rest) => some ((n : Int), rest)
      | none => none := by
  unfold parseYearText
  rw [skipWs_eq_self c cs (isDig_ge_43 c hdig)]
  simp only [if_neg (isDig_ne_dash c hdig), if_neg (isDig_ne_plus c hdig)]

theorem parseYearText_dash (cs : List Char) :
    parseYearText ('-' :: cs) =
      match parseUnsigned cs.length cs with
      | some (n, rest) => some (-(n : Int), rest)
      | none => none := by
  unfold parseYearText
  rw [skipWs_eq_self '-' cs (by decide)]
  simp

theorem parseYearText_plus (cs : List Char) :
    parseYearText ('+' :: cs) =
      match parseUnsigned cs.length cs with
      | some (n, rest) => some ((n : Int), rest)
      | none => none := by
  unfold parseYearText
  rw [skipWs_eq_self '+' cs (by decide)]
  simp

theorem parseYearText_format (y : Int) (r : List Char)
    (hr : ∃ c cs, r = c :: cs ∧ isDig c = false) :
    parseYearText (formatYear y ++ r) = some (y, r) := by
  have hrr : r = [] ∨ ∃ c cs, r = c :: cs ∧ isDig c = false := Or.inr hr
  unfold formatYear
  by_cases h1 : 0 ≤ y ∧ y ≤ 9999
  · rw [if_pos h1]
    obtain ⟨c, cs, hpl, hdig⟩ := padLeft_head 4 y.toNat (by norm_num)
    have hlen4 : (padLeft 4 (natDigitChars y.toNat)).length ≤ 4 := by
      have h10 : y.toNat < 10 ^ 4 := by omega
      have := length_natDigitChars y.toNat 4 h10
      rw [length_padLeft]
      omega
    have hps := parseUnsigned_padded 4 4 y.toNat r (by norm_num) hlen4 hrr
    rw [hpl] at hps ⊢
    rw [List.cons_append, parseYearText_nosign c (cs ++ r) hdig,
      ← List.cons_append, hps]
    show some ((y.toNat : Int), r) = some (y, r)
    rw [Int.toNat_of_nonneg h1.1]
  · rw [if_neg h1]
    by_cases h2 : y < 0
    · rw [if_pos h2]
      have hlen : (padLeft 4 (natDigitChars (-y).toNat)).length
          ≤ (padLeft 4 (natDigitChars (-y).toNat) ++ r).length := by
        rw [List.length_append]
        omega
      have hps := parseUnsigned_padded
        ((padLeft 4 (natDigitChars (-y).toNat) ++ r).length) 4 (-y).toNat r
        (by norm_num) hlen hrr
      rw [List.cons_append, parseYearText_dash, hps]
      show some (-(((-y).toNat : Int)), r) = some (y, r)
      rw [Int.toNat_of_nonneg (by omega : (0 : Int) ≤ -y)]
      simp
    · rw [if_neg h2]
      have hlen : (padLeft 4 (natDigitChars y.toNat)).length
          ≤ (padLeft 4 (natDigitChars y.toNat) ++ r).length := by
        rw [List.length_append]
        omega
      have hps := parseUnsigned_padded
        ((padLeft 4 (natDigitChars y.toNat) ++ r).length) 4 y.toNat r
        (by norm_num) hlen hrr
      rw [List.cons_append, parseYearText_plus, hps]
      show some ((y.toNat : Int), r) = some (y, r)
      rw [Int.toNat_of_nonneg (by omega : (0 : Int) ≤ y)]

theorem daysInMonth_le (y : Int) (m : Nat) : daysInMonth y m ≤ 31 := by
  unfold daysInMonth
  split <;> (try split) <;> omega

theorem parseDateText_formatDate (dt : Date) (h : dt.isValid = true) :
    parseDateText (formatDate dt) = some dt := by
  obtain ⟨y, m, dd⟩ := dt
  have hv : ((1 ≤ m ∧ m ≤ 12) ∧ 1 ≤ dd) ∧ dd ≤ daysInMonth y m := by
    simpa [Date.isValid, Bool.and_eq_true, decide_eq_true_iff] using h
  obtain ⟨⟨⟨hm1, hm12⟩, hd1⟩, hdm⟩ := hv
  have hm100 : m < 10 ^ 2 := by omega
  have hd100 : dd < 10 ^ 2 := by
    have := daysInMonth_le y m
    omega
  obtain ⟨cm, csm, hplm, hdigm⟩ := padLeft_head 2 m (by norm_num)
  obtain ⟨cd, csd, hpld, hdigd⟩ := padLeft_head 2 dd (by norm_num)
  have hlen2m : (padLeft 2 (natDigitChars m)).length ≤ 2 := by
    have := length_natDigitChars m 2 hm100
    rw [length_padLeft]
    omega
  have hlen2d : (padLeft 2 (natDigitChars dd)).length ≤ 2 := by
    have := length_natDigitChars dd 2 hd100
    rw [length_padLeft]
    omega
  have hpm2 : parseNum2 (format2 m ++ '-' :: format2 dd)
      = some (m, '-' :: format2 dd) := by
    unfold parseNum2 format2
    rw [hplm, List.cons_append,
      skipWs_eq_self cm (csm ++ '-' :: padLeft 2 (natDigitChars dd))
        (isDig_ge_43 cm hdigm),
      ← List.cons_append, ← hplm]
    exact parseUnsigned_padded 2 2 m _ (by norm_num) hlen2m
      (Or.inr ⟨'-', _, rfl, by decide⟩)
  have hpd2 : parseNum2 (format2 dd) = some (dd, []) := by
    unfold parseNum2 format2
    rw [hpld, skipWs_eq_self cd csd (isDig_ge_43 cd hdigd), ← hpld,
      ← List.append_nil (padLeft 2 (natDigitChars dd))]
    exact parseUnsigned_padded 2 2 dd [] (by norm_num) hlen2d (Or.inl rfl)
  have hyear : parseYearText (formatYear y ++ '-' :: (format2 m ++ '-' :: format2 dd))
      = some (y, '-' :: (format2 m ++ '-' :: format2 dd)) :=
    parseYearText_format y ('-' :: (format2 m ++ '-' :: format2 dd))
      ⟨'-', _, rfl, by decide⟩
  show parseDateText (formatYear y ++ '-' :: (format2 m ++ '-' :: format2 dd))
      = some ⟨y, m, dd⟩
  simp only [parseDateText, hyear, hpm2, hpd2, List.isEmpty_nil, if_true, h]

/-- C5: for every valid `Event` `e`, decoding the row produced by encoding
`e` yields `e` again: the date is rendered to `YYYY-MM-DD` text by
`write_events` and parsed back by `read_events` to the same date, and
category and description pass through unchanged. -/
theorem decode_encode_roundtrip (e : Event) (h : e.date.isValid = true) :
    decode_row (encode_row e) = some e := by
  obtain ⟨d, cat, desc⟩ := e
  simp only [encode_row, decode_row]
  rw [show parseDateText (formatDate d) = some d from parseDateText_formatDate d h]

/-- Witness for C5 at a concrete event. -/
theorem decode_encode_roundtrip_witness :
    decode_row (encode_row ⟨⟨2024, 5, 1⟩, "party", "Cake day"⟩)
      = some ⟨⟨2024, 5, 1⟩, "party", "Cake day"⟩ :=
  decode_encode_roundtrip ⟨⟨2024, 5, 1⟩, "party", "Cake day"⟩ (by decide)

/-! ## Event store theorems -/

/-- C4: a backing file with the header, one well-formed row and one row
whose date field is the text `"not-a-date"` loads exactly one `Event` (the
well-formed one) and emits exactly one diagnostic; the load does not fail. -/
theorem read_events_malformed_row_tolerance :
    readEvents ["date", "category", "description"]
        [["2024-05-01", "cake", "Birthday"], ["not-a-date", "misc", "Oops"]]
      = .ok [⟨⟨2024, 5, 1⟩, "cake", "Birthday"⟩] 1 := by
  decide

/-- C3 counterexample: a data row whose field count differs from the
header's fails to parse as a record (`csv` `UnequalLengths`), and
`read_events` propagates it via `result?` as a load failure instead of
skipping the row — per-record malformation can escalate. -/
theorem read_events_unequal_row_escalates :
    readEvents ["date", "category", "description"]
        [["2024-05-01", "cake", "Birthday", "extra"]] = .csvError := by
  decide

theorem readRows_ok (hlen : Nat) (h3 : 3 ≤ hlen) :
    ∀ (rows : List (List String)) (acc : List Event) (diags : Nat),
      (∀ r ∈ rows, r.length = hlen) →
      readRows hlen rows acc diags =
        .ok (acc.reverse ++ rows.filterMap (fun r =>
              (parseDateText (r.getD 0 "").data).map
                (fun d => ⟨d, r.getD 1 "", r.getD 2 ""⟩)))
            (diags + rows.countP (fun r => (parseDateText (r.getD 0 "").data).isNone)) := by
  intro rows
  induction rows with
  | nil =>
      intro acc diags _
      simp [readRows]
  | cons row rest ih =>
      intro acc diags hall
      have hrow : row.length = hlen := hall row (List.mem_cons_self row rest)
      have hrest : ∀ r ∈ rest, r.length = hlen :=
        fun r hr => hall r (List.mem_cons_of_mem row hr)
      have hne : ¬ row.length ≠ hlen := fun hcon => hcon hrow
      have h3' : ¬ row.length < 3 := by omega
      rw [readRows, if_neg hne, if_neg h3']
      split
      · next d hp =>
          rw [ih (⟨d, row.getD 1 "", row.getD 2 ""⟩ :: acc) diags hrest]
          simp only [List.getD_eq_getElem?_getD] at hp
          simp [List.filterMap_cons, List.countP_cons, hp]
      · next hp =>
          rw [ih acc (diags + 1) hrest]
          simp only [List.getD_eq_getElem?_getD] at hp
          simp [List.filterMap_cons, List.countP_cons, hp]
          try omega

/-- C3 amended: loading fails only on I/O failure, structurally unreadable
input, or a row whose field count differs from the header's (a `csv`
record error, which `read_events` propagates); when every row has the
header's field count (at least three columns), rows whose date field fails
to parse are skipped with one diagnostic each and loading continues — only
date malformation is recovered locally. -/
theorem read_events_skip_bad_dates (header : List String)
    (rows : List (List String)) (h3 : 3 ≤ header.length)
    (hall : ∀ r ∈ rows, r.length = header.length) :
    readEvents header rows =
      .ok (rows.filterMap (fun r =>
            (parseDateText (r.getD 0 "").data).map
              (fun d => ⟨d, r.getD 1 "", r.getD 2 ""⟩)))
          (rows.countP (fun r => (parseDateText (r.getD 0 "").data).isNone)) := by
  unfold readEvents
  rw [readRows_ok header.length h3 rows [] 0 hall]
  simp

/-- Witness for C3's amended statement. -/
theorem read_events_skip_bad_dates_witness :
    readEvents ["date", "category", "description"]
        [["bogus", "a", "b"], ["2021-12-24", "holiday", "Eve"], ["nope", "c", "d"]]
      = .ok [⟨⟨2021, 12, 24⟩, "holiday", "Eve"⟩] 2 := by
  have := read_events_skip_bad_dates ["date", "category", "description"]
    [["bogus", "a", "b"], ["2021-12-24", "holiday", "Eve"], ["nope", "c", "d"]]
    (by decide) (by decide)
  rw [this]
  decide

/-- C10: `read_events` indexes `record[1]` and `record[2]` without a bounds
check, so for a file whose header and data rows have fewer than three
fields (e.g. the two-column `timestamp,description` schema) reading the
first data row panics rather than erroring or skipping. -/
theorem read_events_short_row_panics (header : List String) (row : List String)
    (rest : List (List String)) (hshort : header.length < 3)
    (hrow : row.length = header.length) :
    readEvents header (row :: rest) = .panicked := by
  unfold readEvents
  rw [readRows, if_neg (by omega), if_pos (by omega)]

/-- Witness for C10: the two-column schema from the spec. -/
theorem read_events_short_row_panics_witness :
    readEvents ["timestamp", "description"] [["1621234567", "Test event"]]
      = .panicked :=
  read_events_short_row_panics ["timestamp", "description"]
    ["1621234567", "Test event"] [] (by decide) (by decide)

/-! ## `run` theorems -/

/-- C8 counterexample: with the events file absent, `run` performs no write
at all to `events.csv` — it does not create the file and writes no seed
record (`write_events` is never called) — and still succeeds with empty
buckets. -/
theorem run_absent_file_no_seed :
    (runModel absentFileInput).2.eventsFileWrites = []
      ∧ (runModel absentFileInput).1 = .ok ⟨[], [], []⟩ := by
  constructor <;> rfl

/-- C8 amended: when the events file is absent at load time, `run` neither
reads nor creates it (no seed record is written); the absence is not a load
error and the run succeeds, displaying empty buckets. -/
theorem run_absent_file_ok (inp : RunInput) (hh : inp.homeFound = true)
    (hd : inp.dirExists = true) (hf : inp.fileExists = false) :
    runModel inp = (.ok ⟨[], [], []⟩, ⟨false, []⟩) := by
  obtain ⟨hF, dE, cO, fE, oO, hdr, rws, td⟩ := inp
  have hh' : hF = true := hh
  have hd' : dE = true := hd
  have hf' : fE = false := hf
  subst hh'
  subst hd'
  subst hf'
  rfl

/-- Witness for C8's amended statement. -/
theorem run_absent_file_ok_witness :
    runModel absentFileInput = (.ok ⟨[], [], []⟩, ⟨false, []⟩) :=
  run_absent_file_ok absentFileInput rfl rfl rfl

/-! ## Birthday annotator theorems -/

/-- C7: the age computation of `print_birthday` differences two zoned
timestamps, so it is NOT a pure calendar-day difference: with birthdate
2000-01-01 and local now 2000-07-01 12:00:00 in a zone whose UTC offset is
+02:00 in January and +03:00 in July (an ordinary DST change), the code
prints 181 days while the whole-calendar-day difference is 182. When the
two offsets happen to be equal the two computations agree. -/
theorem birthday_age_dst_off_by_one :
    (birthdayAgeDays ⟨2000, 1, 1⟩ ⟨2000, 7, 1⟩ 43200 7200 10800 = 181
      ∧ daysBetween ⟨2000, 1, 1⟩ ⟨2000, 7, 1⟩ = 182
      ∧ birthdayAgeDays ⟨2000, 1, 1⟩ ⟨2000, 7, 1⟩ 43200 7200 10800
          ≠ daysBetween ⟨2000, 1, 1⟩ ⟨2000, 7, 1⟩)
    ∧ (∀ (b t : Date) (tod off : Int),
        birthdayAgeDays b t tod off off = daysBetween b t) := by
  constructor
  · refine ⟨by decide, by decide, by decide⟩
  · intro b t tod off
    unfold birthdayAgeDays localTimestamp daysBetween
    have harg : toDayNumber t * 86400 + tod - off - (toDayNumber b * 86400 + tod - off)
        = (toDayNumber t - toDayNumber b) * 86400 := by ring
    rw [harg]
    exact Int.mul_tdiv_cancel _ (by norm_num)

/-- C9: `print_birthday` flags a birthday match exactly when today's month
equals the birthdate's month and today's day equals the birthdate's day —
a pure month/day comparison, independent of either year (and of the
computed day count, which the flag never consults). -/
theorem birthday_match_calendar :
    (∀ b t : Date, birthdayMatch b t = true ↔ t.month = b.month ∧ t.day = b.day)
    ∧ (∀ b t : Date, ∀ y1 y2 : Int,
        birthdayMatch ⟨y1, b.month, b.day⟩ ⟨y2, t.month, t.day⟩ = birthdayMatch b t) := by
  constructor
  · intro b t
    unfold birthdayMatch
    simp only [Bool.and_eq_true, beq_iff_eq]
    omega
  · intro b t y1 y2
    rfl

end Days

